import Mathlib

/-!
# Verification of the breadboard EEPROM programmer core

Shallow embedding of `bbeeprog.py`: the SN74LV8153 nibble-encoding protocol
and per-channel redundant-write suppression, the timed byte-write sequencer
`write_byte`, and the diff-aware write driver `write`.

Conventions:
* Python ints holding byte/address values are modelled as `Nat`; the
  `-1` "unknown last value" sentinel forces the channel's last value to `Int`.
* The serial transport is a byte sink, modelled as the list of bytes
  appended so far.
* Wall-clock timing (`datetime.now`, `time.sleep`) is modelled by an
  abstract integer clock: each `write_byte` call carries the instants at
  which its two `now()` calls return and the instant of the strobe-assert
  channel write, constrained by the sleep semantics (`callValid`).
-/

/-- One SN74LV8153 serial-to-parallel chip on the bus.
`addr` is the 3-bit chip address (`_addr`), `lastValue` the last value
written to its latch (`_last_value`, `-1` = unknown/uninitialized). -/
structure SN74LV8153 where
  addr : Nat
  lastValue : Int
deriving DecidableEq, Repr

/-- `SN74LV8153._protocol`: encode one 8-bit value for chip `addr` as the
two UART telegrams, low nibble first.
Python: `low_nibble = (value & 0x0F) << 4 | addr << 1 | 1`,
`high_nibble = (value >> 4) << 4 | addr << 1 | 1`, `bytes([low, high])`. -/
def SN74LV8153.protocol (addr value : Nat) : List Nat :=
  let low_nibble := (value &&& 0x0F) <<< 4 ||| addr <<< 1 ||| 1
  let high_nibble := (value >>> 4) <<< 4 ||| addr <<< 1 ||| 1
  [low_nibble, high_nibble]

/-- `SN74LV8153.write`: mask the value to 8 bits; if it equals the latch's
last value, send nothing (redundant-write suppression); otherwise send the
two protocol telegrams and record the value.  Returns the updated chip
state and the bytes appended to the serial sink. -/
def SN74LV8153.write (c : SN74LV8153) (value : Nat) : SN74LV8153 × List Nat :=
  let v := value &&& 0xFF
  if (v : Int) = c.lastValue then
    (c, [])
  else
    ({ addr := c.addr, lastValue := (v : Int) }, SN74LV8153.protocol c.addr v)

/-- Identifies which of the three channels a `write` call was issued on. -/
inductive ChanId where
  | addrLo
  | addrHi
  | dataCh
deriving DecidableEq, Repr

/-- One channel-level `write` invocation: which channel, and the value
passed to it. -/
abbrev ChanEvent := ChanId × Nat

/-- `BbEeProg`: the programmer; three SN74LV8153 channels sharing one
serial sink (the list of bytes sent so far). -/
structure BbEeProg where
  addrLo : SN74LV8153
  addrHi : SN74LV8153
  data : SN74LV8153
  sink : List Nat
deriving DecidableEq, Repr

/-- `BbEeProg.ADDR_HI_WRITE_DISABLE_BIT = 1 << 7` (the nWE bit on the
high-address channel). -/
def ADDR_HI_WRITE_DISABLE_BIT : Nat := 1 <<< 7

/-- `BbEeProg.WRITE_CYCLE_MS = 10 + 5` milliseconds. -/
def WRITE_CYCLE_MS : Int := 10 + 5

/-- `BbEeProg.__enter__`: fresh channels at chip addresses 0 (addr-lo),
1 (addr-hi), 2 (data); then write `ADDR_HI_WRITE_DISABLE_BIT` to the
high-address channel so the EEPROM's nWE line is deasserted. -/
def BbEeProg.enter : BbEeProg :=
  let addr_lo : SN74LV8153 := { addr := 0, lastValue := -1 }
  let addr_hi : SN74LV8153 := { addr := 1, lastValue := -1 }
  let data : SN74LV8153 := { addr := 2, lastValue := -1 }
  let r := addr_hi.write ADDR_HI_WRITE_DISABLE_BIT
  { addrLo := addr_lo, addrHi := r.1, data := data, sink := r.2 }

/-- `BbEeProg.write_byte` (untimed channel-level effects): `none` models
the `assert addr <= 0x7FFF` failing before any byte is sent.  Otherwise
performs, in source order: data value, low address byte, high address byte
with nWE kept high, then the strobe (nWE low, then high again).  Returns
the updated programmer and the list of channel `write` invocations made,
in order. -/
def BbEeProg.writeByte (p : BbEeProg) (addr byte : Nat) :
    Option (BbEeProg × List ChanEvent) :=
  if addr ≤ 0x7FFF then
    let d := p.data.write byte
    let lo := p.addrLo.write (addr &&& 0xFF)
    let hi1 := p.addrHi.write (addr >>> 8 ||| ADDR_HI_WRITE_DISABLE_BIT)
    -- (the inter-write delay sits here; see the timed model below)
    let hi2 := hi1.1.write (addr >>> 8)
    let hi3 := hi2.1.write (addr >>> 8 ||| ADDR_HI_WRITE_DISABLE_BIT)
    some ({ addrLo := lo.1, addrHi := hi3.1, data := d.1,
            sink := p.sink ++ d.2 ++ lo.2 ++ hi1.2 ++ hi2.2 ++ hi3.2 },
          [(ChanId.dataCh, byte),
           (ChanId.addrLo, addr &&& 0xFF),
           (ChanId.addrHi, addr >>> 8 ||| ADDR_HI_WRITE_DISABLE_BIT),
           (ChanId.addrHi, addr >>> 8),
           (ChanId.addrHi, addr >>> 8 ||| ADDR_HI_WRITE_DISABLE_BIT)])
  else
    none

/-- The instants observed during one `write_byte` call under an abstract
(mocked) millisecond clock: `tNow` is what the `now()` in the delay
computation returns, `tStrobe` the instant of the strobe-assert channel
write, `tEnd` what the final `now()` (recorded as `_dt_last_write`)
returns. -/
structure TimedCall where
  tNow : Int
  tStrobe : Int
  tEnd : Int
deriving DecidableEq, Repr

/-- The delay `write_byte` computes:
`(_dt_last_write + timedelta(milliseconds=WRITE_CYCLE_MS)) - now()`. -/
def delayOf (dtLastWrite tNow : Int) : Int :=
  dtLastWrite + WRITE_CYCLE_MS - tNow

/-- Physical sanity of one call's instants: the clock does not run
backwards, the strobe-assert write happens only after `sleep(delay)` has
elapsed whenever `delay > 0`, and the final `now()` is read after the
strobe. -/
def callValid (dtLastWrite : Int) (c : TimedCall) : Prop :=
  dtLastWrite ≤ c.tNow ∧
  c.tNow + max (delayOf dtLastWrite c.tNow) 0 ≤ c.tStrobe ∧
  c.tStrobe ≤ c.tEnd

/-- Programmer plus the `_dt_last_write` timestamp. -/
structure TimedProg where
  prog : BbEeProg
  dtLastWrite : Int
deriving DecidableEq, Repr

/-- Timed `write_byte`: same channel effects as `BbEeProg.writeByte`; the
ending `_dt_last_write := now()` records the call's final instant. -/
def TimedProg.writeByte (s : TimedProg) (addr byte : Nat) (c : TimedCall) :
    Option (TimedProg × List ChanEvent) :=
  match s.prog.writeByte addr byte with
  | none => none
  | some r => some ({ prog := r.1, dtLastWrite := c.tEnd }, r.2)

/-- `itertools.zip_longest` on two lists with fill value `None`. -/
def zipLongest {α β : Type} : List α → List β → List (Option α × Option β)
  | [], bs => bs.map fun b => (none, some b)
  | a :: as, [] => (some a, none) :: zipLongest as []
  | a :: as, b :: bs => (some a, some b) :: zipLongest as bs

/-- One console report line emitted by the diff driver. -/
inductive Report where
  | wrote (start stop count : Nat)
  | skipped (start stop count : Nat)
  | nothingToDo
deriving DecidableEq, Repr

/-- The diff-driver loop's mutable state: the programmer, the
`last_chunk_was_old` / `last_chunk_start` run-tracking variables, the
reports printed so far, and the `write_byte` calls `(addr, byte)` issued
so far. -/
structure LoopSt where
  prog : BbEeProg
  wasOld : Bool
  chunkStart : Nat
  reports : List Report
  events : List (Nat × Nat)
deriving DecidableEq, Repr

/-- Outcome of the driver loop: ran to the end of the zipped stream or
broke out (`done`, with the last value the loop variable `addr` was bound
to, `none` if the loop body never ran), or an assertion failed at the
given address (`assertFailed`). -/
inductive DRes where
  | done (st : LoopSt) (lastAddr : Option Nat)
  | assertFailed (st : LoopSt) (addr : Nat)
deriving DecidableEq, Repr

/-- The `for addr, (byte, old_byte) in enumerate(zip_longest(...))` loop of
`BbEeProg.write`.  Each iteration first checks `assert addr < 2**15`,
breaks if `byte is None` (primary exhausted), classifies the address as
skipped (`byte == old_byte`) or written, emits the run report at each
classification change, and calls `write_byte` for written addresses. -/
def driverLoop (st : LoopSt) (addr : Nat) :
    List (Option Nat × Option Nat) → DRes
  | [] => DRes.done st (if addr = 0 then none else some (addr - 1))
  | (b, ob) :: rest =>
    if 2 ^ 15 ≤ addr then
      DRes.assertFailed st addr
    else
      match b with
      | none => DRes.done st (some addr)
      | some byte =>
        if ob = some byte then
          if st.wasOld then
            driverLoop st (addr + 1) rest
          else
            driverLoop
              { st with
                wasOld := true,
                reports := st.reports ++
                  (if addr ≠ 0 then
                    [Report.wrote st.chunkStart (addr - 1)
                      (addr - st.chunkStart)]
                  else []),
                chunkStart := addr }
              (addr + 1) rest
        else
          let st' :=
            if st.wasOld then
              { st with
                wasOld := false,
                reports := st.reports ++
                  [Report.skipped st.chunkStart (addr - 1)
                    (addr - st.chunkStart)],
                chunkStart := addr }
            else st
          match st'.prog.writeByte addr byte with
          | none => DRes.assertFailed st' addr
          | some r =>
            driverLoop
              { st' with prog := r.1, events := st'.events ++ [(addr, byte)] }
              (addr + 1) rest

/-- Outcome of `BbEeProg.write`: normal completion, an assertion failure
("Address overflow"), or the `UnboundLocalError` raised by the final
report referencing the loop variable `addr` when the loop never bound it. -/
inductive DriverOut where
  | finished (st : LoopSt)
  | assertFailed (st : LoopSt) (addr : Nat)
  | unbound (st : LoopSt)
deriving DecidableEq, Repr

/-- `BbEeProg.write(data, old_data=[])`: run the loop, then emit the final
run report (which reads the loop variable `addr`; with an empty zipped
stream that name was never bound). -/
def BbEeProg.write (p : BbEeProg) (data old : List Nat) : DriverOut :=
  match driverLoop ⟨p, false, 0, [], []⟩ 0 (zipLongest data old) with
  | DRes.assertFailed st a => DriverOut.assertFailed st a
  | DRes.done st lastAddr =>
    if st.wasOld = false then
      match lastAddr with
      | none => DriverOut.unbound st
      | some a =>
        DriverOut.finished
          { st with reports := st.reports ++
              [Report.wrote st.chunkStart a (a + 1 - st.chunkStart)] }
    else if st.chunkStart = 0 then
      DriverOut.finished
        { st with reports := st.reports ++ [Report.nothingToDo] }
    else
      match lastAddr with
      | none => DriverOut.unbound st
      | some a =>
        DriverOut.finished
          { st with reports := st.reports ++
              [Report.skipped st.chunkStart a (a + 1 - st.chunkStart)] }

/-- The loop state carried by a loop outcome. -/
def DRes.st : DRes → LoopSt
  | DRes.done st _ => st
  | DRes.assertFailed st _ => st

/-- The loop state carried by a driver outcome. -/
def DriverOut.st : DriverOut → LoopSt
  | DriverOut.finished st => st
  | DriverOut.assertFailed st _ => st
  | DriverOut.unbound st => st

/-- The high-address channel's latch currently has the nWE
(write-disable) bit set. -/
def strobeDeasserted (p : BbEeProg) : Prop :=
  Int.land p.addrHi.lastValue 128 = 128

/-! ## Helper lemmas -/

/-- Masking with `0xFF` is the identity on 8-bit values. -/
theorem mask_byte_eq {v : Nat} (hv : v < 256) : v &&& 0xFF = v := by
  have h := Nat.and_pow_two_sub_one_eq_mod v 8
  norm_num at h
  rw [h]
  exact Nat.mod_eq_of_lt hv

/-- Unfolding equation for `SN74LV8153.write`. -/
theorem SN74LV8153.write_eq (c : SN74LV8153) (v : Nat) :
    c.write v =
      if ((v &&& 0xFF : Nat) : Int) = c.lastValue then (c, [])
      else ({ addr := c.addr, lastValue := ((v &&& 0xFF : Nat) : Int) },
            SN74LV8153.protocol c.addr (v &&& 0xFF)) := rfl

/-- A channel's recorded last value after a `write` is always the masked
value that was passed, whether or not the telegrams were suppressed. -/
theorem SN74LV8153.write_lastValue (c : SN74LV8153) (v : Nat) :
    (c.write v).1.lastValue = ((v &&& 0xFF : Nat) : Int) := by
  rw [SN74LV8153.write_eq]
  split
  · next h => exact h.symm
  · rfl

/-- Bit 7 survives or-ing it in and masking to a byte. -/
theorem land_or_mask (a : Nat) : ((a ||| 128) &&& 255) &&& 128 = 128 := by
  have h128 : (128 : Nat) = 2 ^ 7 := by norm_num
  have h255 : (255 : Nat) = 2 ^ 8 - 1 := by norm_num
  apply Nat.eq_of_testBit_eq
  intro i
  rw [h128, h255]
  simp only [Nat.testBit_land, Nat.testBit_lor, Nat.testBit_two_pow,
    Nat.testBit_two_pow_sub_one]
  by_cases h : (7 : Nat) = i
  · subst h; simp
  · simp [h]

/-! ## C1: the channel encoder -/

/-- C1: for every channel in `[0,8)` and value in `[0,256)`, the encoder
returns exactly the two-byte pair
`((value & 0x0F) << 4 | (channel << 1) | 1,
  ((value >> 4) << 4) | (channel << 1) | 1)`, low-nibble telegram first,
both entries bytes; in particular `encode(5, 0xAB) = (0xBB, 0xAB)`. -/
theorem protocol_spec :
    (∀ channel, channel < 8 → ∀ value, value < 256 →
      SN74LV8153.protocol channel value =
        [(value &&& 0x0F) <<< 4 ||| channel <<< 1 ||| 1,
         (value >>> 4) <<< 4 ||| channel <<< 1 ||| 1] ∧
      ∀ b ∈ SN74LV8153.protocol channel value, b < 256) ∧
    SN74LV8153.protocol 5 0xAB = [0xBB, 0xAB] := by
  constructor
  · intro channel hch value hv
    constructor
    · rfl
    · have h256 : (256 : Nat) = 2 ^ 8 := by norm_num
      have hlow : (value &&& 0x0F) <<< 4 < 256 := by
        have : value &&& 0x0F ≤ 15 := Nat.and_le_right
        rw [Nat.shiftLeft_eq]
        omega
      have hhigh : (value >>> 4) <<< 4 < 256 := by
        have : value >>> 4 < 16 := by
          rw [Nat.shiftRight_eq_div_pow]
          omega
        rw [Nat.shiftLeft_eq]
        omega
      have hch2 : channel <<< 1 < 256 := by
        rw [Nat.shiftLeft_eq]
        omega
      intro b hb
      simp only [SN74LV8153.protocol, List.mem_cons, List.not_mem_nil,
        or_false] at hb
      rcases hb with h | h
      · subst h
        rw [h256]
        exact Nat.or_lt_two_pow (Nat.or_lt_two_pow (h256 ▸ hlow) (h256 ▸ hch2))
          (by norm_num)
      · subst h
        rw [h256]
        exact Nat.or_lt_two_pow (Nat.or_lt_two_pow (h256 ▸ hhigh) (h256 ▸ hch2))
          (by norm_num)
  · rfl

/-- Witness for C1 at `channel = 5`, `value = 0xAB`. -/
theorem protocol_spec_witness :
    SN74LV8153.protocol 5 0xAB =
      [(0xAB &&& 0x0F) <<< 4 ||| 5 <<< 1 ||| 1,
       (0xAB >>> 4) <<< 4 ||| 5 <<< 1 ||| 1] ∧
    ∀ b ∈ SN74LV8153.protocol 5 0xAB, b < 256 :=
  protocol_spec.1 5 (by decide) 0xAB (by decide)

/-! ## C3: redundant-write suppression -/

/-- C3 (amended): for an 8-bit `v`, two consecutive `write(v)` calls on a
channel whose last-written value differs from `v` append exactly one
two-byte telegram pair (the second call appends nothing), and the
last-written value is `v` after each of the two calls.  (If the channel's
last-written value already equals `v`, both calls append nothing — see the
counterexample.) -/
theorem chanWrite_suppression (c : SN74LV8153) (v : Nat) (hv : v < 256)
    (hlast : c.lastValue ≠ (v : Int)) :
    (c.write v).2 = SN74LV8153.protocol c.addr v ∧
    (c.write v).2.length = 2 ∧
    ((c.write v).1.write v).2 = [] ∧
    (c.write v).1.lastValue = (v : Int) ∧
    ((c.write v).1.write v).1.lastValue = (v : Int) := by
  have hm : v &&& 0xFF = v := mask_byte_eq hv
  have hne : ¬ ((v : Int) = c.lastValue) := fun h => hlast h.symm
  have h1 : c.write v =
      ({ addr := c.addr, lastValue := (v : Int) },
       SN74LV8153.protocol c.addr v) := by
    rw [SN74LV8153.write_eq, hm, if_neg hne]
  have h2 : ({ addr := c.addr, lastValue := (v : Int) } :
      SN74LV8153).write v = ({ addr := c.addr, lastValue := (v : Int) }, []) := by
    rw [SN74LV8153.write_eq, hm, if_pos rfl]
  rw [h1]
  refine ⟨rfl, rfl, ?_, rfl, ?_⟩
  · rw [h2]
  · rw [h2]

/-- Counterexample for C3 as stated: on a channel object whose latch
already holds `v` (here: a fresh channel after one `write 5`), two further
consecutive `write 5` calls append zero bytes, not one telegram pair. -/
theorem chanWrite_suppression_cex :
    ¬ (((((⟨0, -1⟩ : SN74LV8153).write 5).1.write 5).2 ++
        ((((⟨0, -1⟩ : SN74LV8153).write 5).1.write 5).1.write 5).2).length = 2) := by
  decide

/-- Witness for C3 (amended) on a fresh channel at chip address 2 with
`v = 0xAB`. -/
theorem chanWrite_suppression_witness :
    ((⟨2, -1⟩ : SN74LV8153).write 0xAB).2 = SN74LV8153.protocol 2 0xAB ∧
    ((⟨2, -1⟩ : SN74LV8153).write 0xAB).2.length = 2 ∧
    (((⟨2, -1⟩ : SN74LV8153).write 0xAB).1.write 0xAB).2 = [] ∧
    ((⟨2, -1⟩ : SN74LV8153).write 0xAB).1.lastValue = (0xAB : Int) ∧
    (((⟨2, -1⟩ : SN74LV8153).write 0xAB).1.write 0xAB).1.lastValue = (0xAB : Int) :=
  chanWrite_suppression ⟨2, -1⟩ 0xAB (by decide) (by decide)

/-! ## C4: order of channel writes in `write_byte` -/

/-- C4: for every address `≤ 0x7FFF` and byte, `write_byte` issues exactly
these channel writes in this order: the value to the data channel,
`address & 0xFF` to the low-address channel,
`(address >> 8) | WRITE_DISABLE_BIT` to the high-address channel, then
(after the delay) `address >> 8` (strobe assert) and
`(address >> 8) | WRITE_DISABLE_BIT` (strobe deassert), with no other
channel write in between. -/
theorem writeByte_event_order (p : BbEeProg) (addr byte : Nat)
    (h : addr ≤ 0x7FFF) :
    ∃ p', p.writeByte addr byte = some (p',
      [(ChanId.dataCh, byte),
       (ChanId.addrLo, addr &&& 0xFF),
       (ChanId.addrHi, addr >>> 8 ||| ADDR_HI_WRITE_DISABLE_BIT),
       (ChanId.addrHi, addr >>> 8),
       (ChanId.addrHi, addr >>> 8 ||| ADDR_HI_WRITE_DISABLE_BIT)]) := by
  unfold BbEeProg.writeByte
  rw [if_pos h]
  exact ⟨_, rfl⟩

/-- Witness for C4 at `addr = 0x1234`, `byte = 0xCD` on the freshly
initialized programmer. -/
theorem writeByte_event_order_witness :
    ∃ p', BbEeProg.enter.writeByte 0x1234 0xCD = some (p',
      [(ChanId.dataCh, 0xCD),
       (ChanId.addrLo, 0x1234 &&& 0xFF),
       (ChanId.addrHi, 0x1234 >>> 8 ||| ADDR_HI_WRITE_DISABLE_BIT),
       (ChanId.addrHi, 0x1234 >>> 8),
       (ChanId.addrHi, 0x1234 >>> 8 ||| ADDR_HI_WRITE_DISABLE_BIT)]) :=
  writeByte_event_order BbEeProg.enter 0x1234 0xCD (by decide)

/-! ## C10: the write-enable line is never left asserted -/

/-- C10: after session initialization (`__enter__`) and after every
completed `write_byte`, the high-address channel's last-written value has
the `WRITE_DISABLE_BIT` (bit 7) set: every byte write ends with the
strobe deasserted. -/
theorem strobe_always_deasserted :
    strobeDeasserted BbEeProg.enter ∧
    ∀ (p : BbEeProg) (addr byte : Nat),
      (p.writeByte addr byte).elim True (fun r => strobeDeasserted r.1) := by
  constructor
  · unfold strobeDeasserted
    decide
  · intro p addr byte
    unfold BbEeProg.writeByte
    by_cases h : addr ≤ 0x7FFF
    · rw [if_pos h]
      show strobeDeasserted _
      unfold strobeDeasserted
      show Int.land
        ((((p.addrHi.write _).1.write _).1.write
          (addr >>> 8 ||| ADDR_HI_WRITE_DISABLE_BIT)).1.lastValue) 128 = 128
      rw [SN74LV8153.write_lastValue]
      have hd : ADDR_HI_WRITE_DISABLE_BIT = 128 := rfl
      rw [hd]
      have hcast : Int.land (((addr >>> 8 ||| 128) &&& 0xFF : Nat) : Int) 128 =
          ((((addr >>> 8 ||| 128) &&& 0xFF) &&& 128 : Nat) : Int) := rfl
      rw [hcast, land_or_mask]
      rfl
    · rw [if_neg h]
      trivial

/-! ## C7: minimum inter-write spacing -/

/-- C7: under the abstract clock, for two consecutive `write_byte` calls
the strobe-assert step of the second call happens at least
`WRITE_CYCLE_MS` after the completion timestamp recorded at the end of
the first call: the first call sets `_dt_last_write` to its final `now()`
instant, and the second call's computed
`delay = (_dt_last_write + WRITE_CYCLE_MS) - now()` is slept off whenever
positive before the strobe is asserted. -/
theorem writeByte_min_spacing (s : TimedProg) (a1 b1 : Nat) (c1 : TimedCall)
    (s1 : TimedProg) (evs1 : List ChanEvent) (a2 b2 : Nat) (c2 : TimedCall)
    (s2 : TimedProg) (evs2 : List ChanEvent)
    (h1 : s.writeByte a1 b1 c1 = some (s1, evs1))
    (hv : callValid s1.dtLastWrite c2)
    (h2 : s1.writeByte a2 b2 c2 = some (s2, evs2)) :
    s1.dtLastWrite = c1.tEnd ∧ c1.tEnd + WRITE_CYCLE_MS ≤ c2.tStrobe := by
  have hdt : s1.dtLastWrite = c1.tEnd := by
    unfold TimedProg.writeByte at h1
    cases hm : s.prog.writeByte a1 b1 with
    | none => rw [hm] at h1; cases h1
    | some r => rw [hm] at h1; cases h1; rfl
  refine ⟨hdt, ?_⟩
  obtain ⟨hmono, hsleep, hend⟩ := hv
  rw [hdt] at hsleep
  have hmax : delayOf c1.tEnd c2.tNow ≤ max (delayOf c1.tEnd c2.tNow) 0 :=
    le_max_left _ _
  unfold delayOf at hsleep hmax
  linarith

/-- Witness for C7: two concrete back-to-back calls, the first completing
at t = 16 ms, the second's strobe asserting at t = 31 ms = 16 + 15. -/
theorem writeByte_min_spacing_witness :
    ∃ (s1 : TimedProg) (evs1 : List ChanEvent) (s2 : TimedProg)
      (evs2 : List ChanEvent),
      TimedProg.writeByte ⟨BbEeProg.enter, 0⟩ 0 0 ⟨0, 15, 16⟩ =
        some (s1, evs1) ∧
      callValid s1.dtLastWrite ⟨16, 31, 40⟩ ∧
      s1.writeByte 1 0 ⟨16, 31, 40⟩ = some (s2, evs2) ∧
      (s1.dtLastWrite = (16 : Int) ∧
        (16 : Int) + WRITE_CYCLE_MS ≤ (31 : Int)) := by
  refine ⟨_, _, _, _, rfl, ?_, rfl, ?_⟩
  · exact ⟨by decide, by decide, by decide⟩
  · exact writeByte_min_spacing ⟨BbEeProg.enter, 0⟩ 0 0 ⟨0, 15, 16⟩ _ _ 1 0
      ⟨16, 31, 40⟩ _ _ rfl ⟨by decide, by decide, by decide⟩ rfl

/-! ## Driver-loop step lemmas -/

/-- Loop on the empty stream: done, `addr` keeps its previous binding. -/
theorem driverLoop_nil (st : LoopSt) (addr : Nat) :
    driverLoop st addr [] =
      DRes.done st (if addr = 0 then none else some (addr - 1)) := rfl

/-- The `assert addr < 2**15` fires first in each iteration. -/
theorem driverLoop_overflow (st : LoopSt) (addr : Nat)
    (b : Option Nat) (ob : Option Nat) (rest : List (Option Nat × Option Nat))
    (h : 2 ^ 15 ≤ addr) :
    driverLoop st addr ((b, ob) :: rest) = DRes.assertFailed st addr := by
  have h32 : (32768 : Nat) ≤ addr := by omega
  cases b <;> simp [driverLoop, h32]

/-- `byte is None` (primary exhausted): break out of the loop. -/
theorem driverLoop_break (st : LoopSt) (addr : Nat) (ob : Option Nat)
    (rest : List (Option Nat × Option Nat)) (h : addr < 2 ^ 15) :
    driverLoop st addr ((none, ob) :: rest) = DRes.done st (some addr) := by
  have h32 : ¬ ((32768 : Nat) ≤ addr) := by omega
  simp [driverLoop, h32]

/-- Equal byte with an already-open skipped run: plain `continue`. -/
theorem driverLoop_eq_old (st : LoopSt) (addr byte : Nat)
    (rest : List (Option Nat × Option Nat)) (h : addr < 2 ^ 15)
    (hw : st.wasOld = true) :
    driverLoop st addr ((some byte, some byte) :: rest) =
      driverLoop st (addr + 1) rest := by
  have h32 : ¬ ((32768 : Nat) ≤ addr) := by omega
  simp [driverLoop, h32, hw]

/-- Equal byte opening a new skipped run: set the flag, report the closed
written run (unless at address 0), restart the chunk. -/
theorem driverLoop_eq_fresh (st : LoopSt) (addr byte : Nat)
    (rest : List (Option Nat × Option Nat)) (h : addr < 2 ^ 15)
    (hw : st.wasOld = false) :
    driverLoop st addr ((some byte, some byte) :: rest) =
      driverLoop
        { st with
          wasOld := true,
          reports := st.reports ++
            (if addr ≠ 0 then
              [Report.wrote st.chunkStart (addr - 1) (addr - st.chunkStart)]
            else []),
          chunkStart := addr }
        (addr + 1) rest := by
  have h32 : ¬ ((32768 : Nat) ≤ addr) := by omega
  simp [driverLoop, h32, hw]

/-- Differing byte with no open skipped run: call `write_byte`. -/
theorem driverLoop_write_fresh (st : LoopSt) (addr byte : Nat)
    (ob : Option Nat) (rest : List (Option Nat × Option Nat))
    (h : addr < 2 ^ 15) (hwas : st.wasOld = false) (hne : ob ≠ some byte)
    (r : BbEeProg × List ChanEvent)
    (hw : st.prog.writeByte addr byte = some r) :
    driverLoop st addr ((some byte, ob) :: rest) =
      driverLoop
        { st with prog := r.1, events := st.events ++ [(addr, byte)] }
        (addr + 1) rest := by
  have h32 : ¬ ((32768 : Nat) ≤ addr) := by omega
  simp [driverLoop, h32, hwas, hne, hw]

/-- Differing byte closing an open skipped run: report it, restart the
chunk, then call `write_byte`. -/
theorem driverLoop_write_old (st : LoopSt) (addr byte : Nat)
    (ob : Option Nat) (rest : List (Option Nat × Option Nat))
    (h : addr < 2 ^ 15) (hwas : st.wasOld = true) (hne : ob ≠ some byte)
    (r : BbEeProg × List ChanEvent)
    (hw : st.prog.writeByte addr byte = some r) :
    driverLoop st addr ((some byte, ob) :: rest) =
      driverLoop
        { st with
          wasOld := false,
          reports := st.reports ++
            [Report.skipped st.chunkStart (addr - 1) (addr - st.chunkStart)],
          chunkStart := addr,
          prog := r.1,
          events := st.events ++ [(addr, byte)] }
        (addr + 1) rest := by
  have h32 : ¬ ((32768 : Nat) ≤ addr) := by omega
  simp [driverLoop, h32, hwas, hne, hw]

/-- `write_byte` succeeds whenever the address precondition holds. -/
theorem writeByte_isSome (p : BbEeProg) (addr byte : Nat)
    (h : addr ≤ 0x7FFF) : ∃ r, p.writeByte addr byte = some r := by
  unfold BbEeProg.writeByte
  rw [if_pos h]
  exact ⟨_, rfl⟩

/-- `zip_longest` unfolding: left list runs on alone. -/
theorem zipLongest_cons_nil {α β : Type} (a : α) (as : List α) :
    zipLongest (a :: as) ([] : List β) = (some a, none) :: zipLongest as [] :=
  rfl

/-- `zip_longest` unfolding: both lists step together. -/
theorem zipLongest_cons_cons {α β : Type} (a : α) (as : List α) (b : β)
    (bs : List β) :
    zipLongest (a :: as) (b :: bs) = (some a, some b) :: zipLongest as bs :=
  rfl

/-- `zip_longest` unfolding: right list runs on alone. -/
theorem zipLongest_nil_left {α β : Type} (bs : List β) :
    zipLongest ([] : List α) bs = bs.map fun b => (none, some b) :=
  rfl

/-- Events only accumulate: everything already recorded when the loop
starts is still recorded when it stops. -/
theorem driverLoop_events_mono :
    ∀ (pairs : List (Option Nat × Option Nat)) (st : LoopSt) (i : Nat)
      (e : Nat × Nat), e ∈ st.events →
      e ∈ (driverLoop st i pairs).st.events := by
  intro pairs
  induction pairs with
  | nil =>
    intro st i e he
    rw [driverLoop_nil]
    exact he
  | cons pr rest ih =>
    intro st i e he
    obtain ⟨b, ob⟩ := pr
    by_cases hi : 2 ^ 15 ≤ i
    · rw [driverLoop_overflow st i b ob rest hi]
      exact he
    · have hlt : i < 2 ^ 15 := Nat.lt_of_not_le hi
      cases b with
      | none =>
        rw [driverLoop_break st i ob rest hlt]
        exact he
      | some byte =>
        by_cases heq : ob = some byte
        · subst heq
          cases hwas : st.wasOld with
          | true =>
            rw [driverLoop_eq_old st i byte rest hlt hwas]
            exact ih st (i + 1) e he
          | false =>
            rw [driverLoop_eq_fresh st i byte rest hlt hwas]
            exact ih _ (i + 1) e he
        · obtain ⟨r, hw⟩ := writeByte_isSome st.prog i byte (by omega)
          cases hwas : st.wasOld with
          | false =>
            rw [driverLoop_write_fresh st i byte ob rest hlt hwas heq r hw]
            exact ih _ (i + 1) e (List.mem_append_left _ he)
          | true =>
            rw [driverLoop_write_old st i byte ob rest hlt hwas heq r hw]
            exact ih _ (i + 1) e (List.mem_append_left _ he)

/-- Every event the loop adds is at an address below `2^15` (it was
recorded after the overflow assert passed). -/
theorem driverLoop_events_bound :
    ∀ (pairs : List (Option Nat × Option Nat)) (st : LoopSt) (i : Nat)
      (e : Nat × Nat), e ∈ (driverLoop st i pairs).st.events →
      e ∈ st.events ∨ e.1 < 2 ^ 15 := by
  intro pairs
  induction pairs with
  | nil =>
    intro st i e he
    rw [driverLoop_nil] at he
    exact Or.inl he
  | cons pr rest ih =>
    intro st i e he
    obtain ⟨b, ob⟩ := pr
    by_cases hi : 2 ^ 15 ≤ i
    · rw [driverLoop_overflow st i b ob rest hi] at he
      exact Or.inl he
    · have hlt : i < 2 ^ 15 := Nat.lt_of_not_le hi
      cases b with
      | none =>
        rw [driverLoop_break st i ob rest hlt] at he
        exact Or.inl he
      | some byte =>
        by_cases heq : ob = some byte
        · subst heq
          cases hwas : st.wasOld with
          | true =>
            rw [driverLoop_eq_old st i byte rest hlt hwas] at he
            exact ih st (i + 1) e he
          | false =>
            rw [driverLoop_eq_fresh st i byte rest hlt hwas] at he
            rcases ih _ (i + 1) e he with h | h
            · exact Or.inl h
            · exact Or.inr h
        · obtain ⟨r, hw⟩ := writeByte_isSome st.prog i byte (by omega)
          cases hwas : st.wasOld with
          | false =>
            rw [driverLoop_write_fresh st i byte ob rest hlt hwas heq r hw] at he
            rcases ih _ (i + 1) e he with hmem | hbound
            · rcases List.mem_append.mp hmem with hmem' | hmem'
              · exact Or.inl hmem'
              · simp only [List.mem_singleton] at hmem'
                subst hmem'
                exact Or.inr hlt
            · exact Or.inr hbound
          | true =>
            rw [driverLoop_write_old st i byte ob rest hlt hwas heq r hw] at he
            rcases ih _ (i + 1) e he with hmem | hbound
            · rcases List.mem_append.mp hmem with hmem' | hmem'
              · exact Or.inl hmem'
              · simp only [List.mem_singleton] at hmem'
                subst hmem'
                exact Or.inr hlt
            · exact Or.inr hbound

/-- If the primary stream extends past address `2^15`, the loop hits the
overflow assert exactly at address `2^15`. -/
theorem driverLoop_reaches_overflow :
    ∀ (ds os : List Nat) (st : LoopSt) (i : Nat),
      i ≤ 2 ^ 15 → 2 ^ 15 < i + ds.length →
      ∃ st', driverLoop st i (zipLongest ds os) =
        DRes.assertFailed st' (2 ^ 15) := by
  intro ds
  induction ds with
  | nil =>
    intro os st i h1 h2
    simp only [List.length_nil] at h2
    omega
  | cons d ds ih =>
    intro os st i h1 h2
    simp only [List.length_cons] at h2
    by_cases hi : i = 2 ^ 15
    · subst hi
      cases os with
      | nil =>
        rw [zipLongest_cons_nil, driverLoop_overflow _ _ _ _ _ (le_refl _)]
        exact ⟨st, rfl⟩
      | cons o os =>
        rw [zipLongest_cons_cons, driverLoop_overflow _ _ _ _ _ (le_refl _)]
        exact ⟨st, rfl⟩
    · have hlt : i < 2 ^ 15 := by omega
      cases os with
      | nil =>
        rw [zipLongest_cons_nil]
        obtain ⟨r, hw⟩ := writeByte_isSome st.prog i d (by omega)
        cases hwas : st.wasOld with
        | false =>
          rw [driverLoop_write_fresh st i d none _ hlt hwas (by simp) r hw]
          exact ih [] _ (i + 1) (by omega) (by omega)
        | true =>
          rw [driverLoop_write_old st i d none _ hlt hwas (by simp) r hw]
          exact ih [] _ (i + 1) (by omega) (by omega)
      | cons o os =>
        rw [zipLongest_cons_cons]
        by_cases heq : o = d
        · subst heq
          cases hwas : st.wasOld with
          | true =>
            rw [driverLoop_eq_old st i o _ hlt hwas]
            exact ih os _ (i + 1) (by omega) (by omega)
          | false =>
            rw [driverLoop_eq_fresh st i o _ hlt hwas]
            exact ih os _ (i + 1) (by omega) (by omega)
        · have hne : some o ≠ some d := by
            intro hcon
            exact heq (Option.some.inj hcon)
          obtain ⟨r, hw⟩ := writeByte_isSome st.prog i d (by omega)
          cases hwas : st.wasOld with
          | false =>
            rw [driverLoop_write_fresh st i d (some o) _ hlt hwas hne r hw]
            exact ih os _ (i + 1) (by omega) (by omega)
          | true =>
            rw [driverLoop_write_old st i d (some o) _ hlt hwas hne r hw]
            exact ih os _ (i + 1) (by omega) (by omega)

/-- `write` propagates a loop assertion failure unchanged. -/
theorem write_assertFailed (p : BbEeProg) (data old : List Nat)
    (st' : LoopSt) (a : Nat)
    (h : driverLoop ⟨p, false, 0, [], []⟩ 0 (zipLongest data old) =
      DRes.assertFailed st' a) :
    p.write data old = DriverOut.assertFailed st' a := by
  unfold BbEeProg.write
  rw [h]

/-- The final report stage of `write` never changes the recorded
`write_byte` calls. -/
theorem write_st_events (p : BbEeProg) (data old : List Nat) :
    (p.write data old).st.events =
      (driverLoop ⟨p, false, 0, [], []⟩ 0 (zipLongest data old)).st.events := by
  unfold BbEeProg.write
  split
  · next st a h =>
    rw [h]
    rfl
  · next st lastAddr h =>
    rw [h]
    split
    · split
      · rfl
      · rfl
    · split
      · rfl
      · split
        · rfl
        · rfl

/-! ## C5: address overflow is fatal -/

/-- C5: any address `≥ 2^15` violates the precondition:
`write_byte(0x8000, _)` fails its assert before sending anything, and a
primary sequence longer than `2^15` bytes makes the diff driver fail at
address `2^15`, every `write_byte` call it made being at an address below
`2^15`. -/
theorem address_overflow_aborts :
    (∀ (p : BbEeProg) (byte : Nat), p.writeByte 0x8000 byte = none) ∧
    (∀ (p : BbEeProg) (data old : List Nat), 2 ^ 15 < data.length →
      ∃ st', p.write data old = DriverOut.assertFailed st' (2 ^ 15) ∧
        ∀ e ∈ st'.events, e.1 < 2 ^ 15) := by
  constructor
  · intro p byte
    unfold BbEeProg.writeByte
    rw [if_neg (by omega)]
  · intro p data old hlen
    obtain ⟨st', hloop⟩ := driverLoop_reaches_overflow data old
      ⟨p, false, 0, [], []⟩ 0 (by omega) (by omega)
    refine ⟨st', write_assertFailed p data old st' _ hloop, ?_⟩
    intro e he
    have hb := driverLoop_events_bound (zipLongest data old)
      ⟨p, false, 0, [], []⟩ 0 e ?_
    · rcases hb with h | h
      · simp at h
      · exact h
    · rw [hloop]
      exact he

/-- Witness for C5: `write_byte` at `0x8000`, and a primary sequence of
`2^15 + 1` zero bytes. -/
theorem address_overflow_aborts_witness :
    BbEeProg.enter.writeByte 0x8000 0 = none ∧
    ∃ st', BbEeProg.enter.write (List.replicate (2 ^ 15 + 1) 0) [] =
      DriverOut.assertFailed st' (2 ^ 15) ∧ ∀ e ∈ st'.events, e.1 < 2 ^ 15 :=
  ⟨address_overflow_aborts.1 BbEeProg.enter 0,
   address_overflow_aborts.2 BbEeProg.enter _ []
     (by rw [List.length_replicate]; omega)⟩

/-- Once the baseline is exhausted, `zip_longest` fills with `None`, which
never compares equal to a byte, so every remaining primary byte is
written: each address `j` at or past the baseline's length gets a
`write_byte (i+j) primary[j]` call recorded. -/
theorem driverLoop_writes_tail :
    ∀ (ds os : List Nat) (st : LoopSt) (i : Nat),
      i + ds.length ≤ 2 ^ 15 →
      ∀ (j : Nat), os.length ≤ j → j < ds.length →
      (i + j, ds.getD j 0) ∈ (driverLoop st i (zipLongest ds os)).st.events := by
  intro ds
  induction ds with
  | nil =>
    intro os st i hb j hos hj
    simp at hj
  | cons d ds ih =>
    intro os st i hb j hos hj
    simp only [List.length_cons] at hb hj
    have hlt : i < 2 ^ 15 := by omega
    cases os with
    | nil =>
      rw [zipLongest_cons_nil]
      obtain ⟨r, hw⟩ := writeByte_isSome st.prog i d (by omega)
      cases j with
      | zero =>
        have hmono : ∀ st2 : LoopSt, (i, d) ∈ st2.events →
            (i + 0, (d :: ds).getD 0 0) ∈
              (driverLoop st2 (i + 1) (zipLongest ds [])).st.events := by
          intro st2 hmem
          have hres := driverLoop_events_mono (zipLongest ds []) st2 (i + 1)
            (i, d) hmem
          simpa using hres
        cases hwas : st.wasOld with
        | false =>
          rw [driverLoop_write_fresh st i d none _ hlt hwas (by simp) r hw]
          exact hmono _ (by simp)
        | true =>
          rw [driverLoop_write_old st i d none _ hlt hwas (by simp) r hw]
          exact hmono _ (by simp)
      | succ j' =>
        have hnext : ∀ st2 : LoopSt,
            (i + (j' + 1), (d :: ds).getD (j' + 1) 0) ∈
              (driverLoop st2 (i + 1) (zipLongest ds [])).st.events := by
          intro st2
          have hres := ih [] st2 (i + 1) (by omega) j' (by simp) (by omega)
          have hidx : i + (j' + 1) = (i + 1) + j' := by omega
          rw [hidx]
          exact hres
        cases hwas : st.wasOld with
        | false =>
          rw [driverLoop_write_fresh st i d none _ hlt hwas (by simp) r hw]
          exact hnext _
        | true =>
          rw [driverLoop_write_old st i d none _ hlt hwas (by simp) r hw]
          exact hnext _
    | cons o os' =>
      simp only [List.length_cons] at hos
      obtain ⟨j', rfl⟩ : ∃ j'', j = j'' + 1 := ⟨j - 1, by omega⟩
      rw [zipLongest_cons_cons]
      have hnext : ∀ st2 : LoopSt,
          (i + (j' + 1), ds.getD j' 0) ∈
            (driverLoop st2 (i + 1) (zipLongest ds os')).st.events := by
        intro st2
        have hres := ih os' st2 (i + 1) (by omega) j' (by omega) (by omega)
        have hidx : i + (j' + 1) = (i + 1) + j' := by omega
        rw [hidx]
        exact hres
      by_cases heq : o = d
      · subst heq
        cases hwas : st.wasOld with
        | true =>
          rw [driverLoop_eq_old st i o _ hlt hwas]
          exact hnext st
        | false =>
          rw [driverLoop_eq_fresh st i o _ hlt hwas]
          exact hnext _
      · have hne : (some o : Option Nat) ≠ some d := by
          intro hcon
          exact heq (Option.some.inj hcon)
        obtain ⟨r, hw⟩ := writeByte_isSome st.prog i d (by omega)
        cases hwas : st.wasOld with
        | false =>
          rw [driverLoop_write_fresh st i d (some o) _ hlt hwas hne r hw]
          exact hnext _
        | true =>
          rw [driverLoop_write_old st i d (some o) _ hlt hwas hne r hw]
          exact hnext _

/-! ## C2: a baseline shorter than the primary does NOT stop the loop -/

/-- Counterexample for C2: with `primary = [1, 2]` and `baseline = [1]`
(baseline length 1), address `1 ≥ 1` IS visited and written — the driver
records the `write_byte(1, 2)` call — so the loop does not stop where the
baseline ends. -/
theorem baseline_shorter_cex :
    (1, 2) ∈ (BbEeProg.enter.write [1, 2] [1]).st.events ∧
    List.length [1] = 1 := by
  constructor
  · decide
  · rfl

/-- C2 (amended): when the baseline is strictly shorter than the primary
sequence, the loop does not stop where the baseline ends; instead every
address from the baseline's length up to the primary's end is visited and
written (the `None` fill-in compares unequal to every byte).  The loop
breaks early only when the primary is exhausted before the baseline. -/
theorem baseline_shorter_writes_tail (p : BbEeProg) (data old : List Nat)
    (_hlen : old.length < data.length) (hcap : data.length ≤ 2 ^ 15)
    (j : Nat) (hj1 : old.length ≤ j) (hj2 : j < data.length) :
    (j, data.getD j 0) ∈ (p.write data old).st.events := by
  rw [write_st_events]
  have hres := driverLoop_writes_tail data old ⟨p, false, 0, [], []⟩ 0
    (by omega) j hj1 hj2
  simpa using hres

/-- Witness for C2 (amended): `primary = [5, 6, 7]`, `baseline = [5]`,
address `2` is written with byte `7`. -/
theorem baseline_shorter_writes_tail_witness :
    (2, List.getD [5, 6, 7] 2 0) ∈
      (BbEeProg.enter.write [5, 6, 7] [5]).st.events :=
  baseline_shorter_writes_tail BbEeProg.enter [5, 6, 7] [5]
    (by decide) (by norm_num) 2 (by decide) (by decide)

/-- With no baseline, every pair is `(some byte, none)`: the loop stays in
the "written" classification, calls `write_byte` for every address in
order, and emits no report. -/
theorem driverLoop_no_baseline :
    ∀ (ds : List Nat) (st : LoopSt) (i : Nat),
      st.wasOld = false → i + ds.length ≤ 2 ^ 15 →
      ∃ p' : BbEeProg,
        driverLoop st i (zipLongest ds []) =
          DRes.done
            ⟨p', false, st.chunkStart, st.reports,
              st.events ++ List.enumFrom i ds⟩
            (if i + ds.length = 0 then none else some (i + ds.length - 1)) := by
  intro ds
  induction ds with
  | nil =>
    intro st i hwas hb
    obtain ⟨pr, w, cs, rp, ev⟩ := st
    simp only [] at hwas
    subst hwas
    refine ⟨pr, ?_⟩
    rw [zipLongest_nil_left]
    simp [driverLoop_nil]
  | cons d ds ih =>
    intro st i hwas hb
    simp only [List.length_cons] at hb
    have hlt : i < 2 ^ 15 := by omega
    rw [zipLongest_cons_nil]
    obtain ⟨r, hw⟩ := writeByte_isSome st.prog i d (by omega)
    rw [driverLoop_write_fresh st i d none _ hlt hwas (by simp) r hw]
    obtain ⟨p', hres⟩ := ih
      { st with prog := r.1, events := st.events ++ [(i, d)] } (i + 1) hwas
      (by omega)
    refine ⟨p', ?_⟩
    rw [hres]
    have hidx : (i + 1) + ds.length = i + (ds.length + 1) := by omega
    rw [hidx]
    simp [List.append_assoc, List.enumFrom]

/-- With no baseline and a nonempty primary, `write` finishes with every
byte's `write_byte` call recorded and a single final written-run report. -/
theorem write_no_baseline (p : BbEeProg) (data : List Nat)
    (hcap : data.length ≤ 2 ^ 15) (hne : data ≠ []) :
    ∃ p', p.write data [] =
      DriverOut.finished
        ⟨p', false, 0, [Report.wrote 0 (data.length - 1) data.length],
          List.enumFrom 0 data⟩ := by
  obtain ⟨p', hres⟩ := driverLoop_no_baseline data ⟨p, false, 0, [], []⟩ 0
    rfl (by omega)
  refine ⟨p', ?_⟩
  have hlen0 : data.length ≠ 0 := by
    intro hc
    exact hne (List.length_eq_zero.mp hc)
  unfold BbEeProg.write
  rw [hres]
  have hite : (if 0 + data.length = 0 then none
      else some (0 + data.length - 1) : Option Nat) = some (data.length - 1) := by
    rw [if_neg (by omega)]
    congr 1
    omega
  rw [hite]
  show DriverOut.finished
      ⟨p', false, 0,
        [] ++ [Report.wrote 0 (data.length - 1) (data.length - 1 + 1 - 0)],
        List.enumFrom 0 data⟩ = _
  have hc : data.length - 1 + 1 - 0 = data.length := by omega
  rw [hc]
  rfl

/-! ## C6: no baseline means every byte is written, nothing skipped -/

/-- C6: run with no baseline (`old_data` defaults to the empty sequence),
the driver records a `write_byte` call for every address `0 ≤ a <
len(primary)` with the corresponding byte, in order, and never emits a
skipped-run report (every report it emits is a written-run report). -/
theorem no_baseline_writes_all (p : BbEeProg) (data : List Nat)
    (hcap : data.length ≤ 2 ^ 15) :
    (p.write data []).st.events = List.enumFrom 0 data ∧
    ∀ rep ∈ (p.write data []).st.reports,
      ∃ s e n, rep = Report.wrote s e n := by
  cases hd : data with
  | nil =>
    constructor
    · rfl
    · intro rep hrep
      have h0 : (p.write [] []).st.reports = [] := rfl
      rw [h0] at hrep
      cases hrep
  | cons d ds =>
    obtain ⟨p', hres⟩ := write_no_baseline p (d :: ds) (hd ▸ hcap) (by simp)
    rw [hres]
    constructor
    · rfl
    · intro rep hrep
      simp only [DriverOut.st, List.mem_singleton] at hrep
      exact ⟨0, (d :: ds).length - 1, (d :: ds).length, hrep⟩

/-- Witness for C6 at `primary = [7, 7]`. -/
theorem no_baseline_writes_all_witness :
    (BbEeProg.enter.write [7, 7] []).st.events = List.enumFrom 0 [7, 7] ∧
    ∀ rep ∈ (BbEeProg.enter.write [7, 7] []).st.reports,
      ∃ s e n, rep = Report.wrote s e n :=
  no_baseline_writes_all BbEeProg.enter [7, 7] (by norm_num)

/-- With an open skipped run, a stretch of equal byte pairs is pure
`continue`: the loop state is untouched and the index advances. -/
theorem driverLoop_skips_equal :
    ∀ (ds : List Nat) (st : LoopSt) (i : Nat)
      (rest : List (Option Nat × Option Nat)),
      st.wasOld = true → i + ds.length ≤ 2 ^ 15 →
      driverLoop st i ((ds.map fun b => (some b, some b)) ++ rest) =
        driverLoop st (i + ds.length) rest := by
  intro ds
  induction ds with
  | nil =>
    intro st i rest hwas hb
    simp only [List.map_nil, List.nil_append, List.length_nil, Nat.add_zero]
  | cons d ds ih =>
    intro st i rest hwas hb
    simp only [List.length_cons] at hb
    simp only [List.map_cons, List.cons_append, List.length_cons]
    rw [driverLoop_eq_old st i d _ (by omega) hwas]
    rw [ih st (i + 1) rest hwas (by omega)]
    have hidx : (i + 1) + ds.length = i + (ds.length + 1) := by omega
    rw [hidx]

/-- When the primary is a pointwise-equal prefix of the baseline,
`zip_longest` yields the equal pairs followed by `None`-filled leftovers
of the baseline. -/
theorem zipLongest_all_eq :
    ∀ (ds os : List Nat), ds.length ≤ os.length →
      (∀ pr ∈ ds.zip os, pr.1 = pr.2) →
      zipLongest ds os = (ds.map fun b => (some b, some b)) ++
        ((os.drop ds.length).map fun o => ((none : Option Nat), some o)) := by
  intro ds
  induction ds with
  | nil =>
    intro os _ _
    rw [zipLongest_nil_left]
    simp
  | cons d ds ih =>
    intro os hlen heq
    cases os with
    | nil => simp at hlen
    | cons o os =>
      have hdo : d = o := heq (d, o) (by simp)
      subst hdo
      simp only [List.length_cons] at hlen
      rw [zipLongest_cons_cons, ih os (by omega) ?_]
      · simp
      · intro pr hpr
        exact heq pr (by simp [hpr])

/-! ## C8: fully matching baseline reports "nothing to do" -/

/-- C8: when a baseline is supplied and every primary byte equals the
corresponding baseline byte (the whole stream is one skipped run starting
at address 0), the driver issues no `write_byte` call, leaves the
programmer untouched, and reports exactly "nothing to do" — no
written-run and no skipped-run range report. -/
theorem all_equal_nothing_to_do (p : BbEeProg) (data old : List Nat)
    (hne : data ≠ []) (hlen : data.length ≤ old.length)
    (hcap : old.length ≤ 2 ^ 15)
    (heq : ∀ pr ∈ data.zip old, pr.1 = pr.2) :
    p.write data old =
      DriverOut.finished ⟨p, true, 0, [Report.nothingToDo], []⟩ := by
  obtain ⟨d, ds, rfl⟩ : ∃ d ds, data = d :: ds := by
    cases data with
    | nil => exact absurd rfl hne
    | cons d ds => exact ⟨d, ds, rfl⟩
  obtain ⟨o, os, rfl⟩ : ∃ o os, old = o :: os := by
    cases old with
    | nil => simp at hlen
    | cons o os => exact ⟨o, os, rfl⟩
  have hdo : d = o := heq (d, o) (by simp)
  subst hdo
  simp only [List.length_cons] at hlen hcap
  have hloop : ∃ la,
      driverLoop ⟨p, false, 0, [], []⟩ 0 (zipLongest (d :: ds) (d :: os)) =
        DRes.done ⟨p, true, 0, [], []⟩ la := by
    rw [zipLongest_all_eq (d :: ds) (d :: os) (by simp; omega) heq]
    simp only [List.map_cons, List.cons_append, List.length_cons,
      List.drop_succ_cons]
    have hstep :
        driverLoop ⟨p, false, 0, [], []⟩ 0
          ((some d, some d) :: ((ds.map fun b => (some b, some b)) ++
            ((os.drop ds.length).map fun o' =>
              ((none : Option Nat), some o')))) =
        driverLoop ⟨p, true, 0, [], []⟩ 1
          ((ds.map fun b => (some b, some b)) ++
            ((os.drop ds.length).map fun o' =>
              ((none : Option Nat), some o'))) := by
      rw [driverLoop_eq_fresh _ 0 d _ (by norm_num) rfl]
      rfl
    rw [hstep]
    rw [driverLoop_skips_equal ds ⟨p, true, 0, [], []⟩ 1 _ rfl (by omega)]
    cases hdrop : os.drop ds.length with
    | nil =>
      rw [List.map_nil, driverLoop_nil]
      exact ⟨_, rfl⟩
    | cons o' os' =>
      have hlt : 1 + ds.length < 2 ^ 15 := by
        have hdl := congrArg List.length hdrop
        rw [List.length_drop, List.length_cons] at hdl
        omega
      rw [List.map_cons, driverLoop_break _ _ _ _ hlt]
      exact ⟨_, rfl⟩
  obtain ⟨la, hloop⟩ := hloop
  unfold BbEeProg.write
  rw [hloop]
  rfl

/-- Witness for C8 at `primary = baseline = [3, 4]`. -/
theorem all_equal_nothing_to_do_witness :
    BbEeProg.enter.write [3, 4] [3, 4] =
      DriverOut.finished ⟨BbEeProg.enter, true, 0, [Report.nothingToDo], []⟩ :=
  all_equal_nothing_to_do BbEeProg.enter [3, 4] [3, 4] (by decide)
    (by decide) (by norm_num) (by decide)

/-! ## C9: empty primary sequence -/

/-- Counterexample for C9 as stated: with an empty primary and a
NONEMPTY baseline, the zipped stream is not empty — the loop body runs
once, binds `addr = 0`, and breaks — so `write` completes normally,
writes nothing, and even emits a (spurious) one-byte written-run report
instead of failing with `UnboundLocalError`. -/
theorem empty_primary_cex :
    BbEeProg.enter.write [] [0] =
      DriverOut.finished
        ⟨BbEeProg.enter, false, 0, [Report.wrote 0 0 1], []⟩ := by
  decide

/-- C9 (amended): with an empty primary and an empty (defaulted) baseline
the loop body never runs, the loop variable `addr` is never bound, and
the final report raises `UnboundLocalError` with no byte written and no
report emitted; but with an empty primary and a nonempty baseline the
loop body does run (and immediately breaks), so the driver completes
normally, still writes nothing, and emits a spurious one-byte
written-run report. -/
theorem empty_primary (p : BbEeProg) :
    p.write [] [] = DriverOut.unbound ⟨p, false, 0, [], []⟩ ∧
    ∀ old : List Nat, old ≠ [] →
      p.write [] old =
        DriverOut.finished ⟨p, false, 0, [Report.wrote 0 0 1], []⟩ := by
  constructor
  · rfl
  · intro old hne
    cases old with
    | nil => exact absurd rfl hne
    | cons o os =>
      unfold BbEeProg.write
      rw [zipLongest_nil_left, List.map_cons,
        driverLoop_break _ _ _ _ (by norm_num)]
      rfl

/-- Witness for C9 (amended): the initialized programmer with baselines
`[]` and `[1]`. -/
theorem empty_primary_witness :
    BbEeProg.enter.write [] [] =
      DriverOut.unbound ⟨BbEeProg.enter, false, 0, [], []⟩ ∧
    BbEeProg.enter.write [] [1] =
      DriverOut.finished
        ⟨BbEeProg.enter, false, 0, [Report.wrote 0 0 1], []⟩ :=
  ⟨(empty_primary BbEeProg.enter).1,
   (empty_primary BbEeProg.enter).2 [1] (by simp)⟩
